import Mathlib

/-! Shallow embedding of the gPodder `setup.py` install-manifest builder.

The script walks three directory roots (`src/gpodder`, `bin`, `share`) and
builds the package list, the script list and the data-file manifest that are
handed to `distutils.core.setup`.  We model Python strings as `List Char`
(so that the character-level operations of the script — `startswith`, `split`,
`replace`, slicing — are exact), directory walks as explicit lists of
`(dirpath, filenames)` pairs in walk order, the filesystem-existence test
`os.path.exists` as a boolean oracle, and raised exceptions with `Except`.
Line numbers in doc comments refer to `setup.py`.
-/

set_option autoImplicit false

namespace GpodderSetup

/-- Python strings, character by character. -/
abbrev Str := List Char

/-- Python `s.startswith(p)`. -/
def pyStartswith (s p : Str) : Bool := p.isPrefixOf s

/-- Python `s.endswith(p)`. -/
def pyEndswith (s p : Str) : Bool := p.isSuffixOf s

/-- `os.path.join(d, f)` for the relative path components used in the script. -/
def pyJoin (d f : Str) : Str := d ++ '/' :: f

/-- Python slicing `s[:-n]` (for `n ≤ len(s)`, and clamped to `""` otherwise,
exactly as in Python). -/
def pyDropRight (s : Str) (n : Nat) : Str := s.take (s.length - n)

/-- Split off everything up to and including the first occurrence of `sep`;
`none` when `sep` does not occur. -/
def breakAtChar (sep : Char) : Str → Option (Str × Str)
  | [] => none
  | c :: r =>
    if c = sep then some ([], r)
    else (breakAtChar sep r).map (fun p => (c :: p.1, p.2))

/-- Python `s.split(sep, maxsplit)` for a one-character separator. -/
def pySplitN (sep : Char) : Nat → Str → List Str
  | 0, s => [s]
  | n + 1, s =>
    match breakAtChar sep s with
    | none => [s]
    | some (a, b) => a :: pySplitN sep n b

/-- Python `s.split(sep)` with no split limit: `s.length` splits always
suffice, since every split consumes at least the separator character. -/
def pySplit (sep : Char) (s : Str) : List Str := pySplitN sep s.length s

/-- `os.path.basename` for the slash-separated relative paths used here. -/
def pyBasename (s : Str) : Str := (pySplit '/' s).getLastD []

/-- Python `s.rfind(c)`: the greatest index holding `c`, or `-1`. -/
def pyRfind (c : Char) (s : Str) : Int :=
  match s.reverse.findIdx? (fun x => x == c) with
  | none => -1
  | some k => ((s.length - 1 - k : Nat) : Int)

/-- The root part of `os.path.splitext(p)` (CPython `genericpath._splitext`):
cut at the last dot strictly after the last path separator, unless every
character between the separator and that dot is itself a dot (a leading-dot
name such as `".bashrc"` or `"..1"` is kept whole). -/
def splitextRoot (p : Str) : Str :=
  let sepIndex := pyRfind '/' p
  let dotIndex := pyRfind '.' p
  if sepIndex < dotIndex then
    if ((p.drop (sepIndex + 1).toNat).take (dotIndex.toNat - (sepIndex + 1).toNat)).all
        (fun x => x == '.') then p
    else p.take dotIndex.toNat
  else p

/-- Worker for `pyReplace`; the fuel starts at `s.length`, which is enough
because each step consumes at least one character of `s`. -/
def pyReplaceAux (old new : Str) : Nat → Str → Str
  | 0, s => s
  | n + 1, s =>
    if !old.isEmpty && old.isPrefixOf s then
      new ++ pyReplaceAux old new n (s.drop old.length)
    else
      match s with
      | [] => []
      | c :: r => c :: pyReplaceAux old new n r

/-- Python `s.replace(old, new)` — every non-overlapping occurrence, scanned
left to right — for nonempty `old` (the script only replaces `"share/man"`). -/
def pyReplace (s old new : Str) : Str := pyReplaceAux old new s.length s

/-- The exceptions the script can raise.  `missingFile` is the distinguished
`MissingFile` (line 37); `valueError` is the tuple-unpacking failure of
line 66; `attributeError` is an attribute lookup failure (lines 34 and 191). -/
inductive PyErr where
  | missingFile : Str → PyErr
  | valueError : PyErr
  | attributeError : PyErr
deriving DecidableEq, Repr

/-- The ambient state the script reads once: `$GPODDER_INSTALL_UIS` split on
whitespace (line 174), `$LINGUAS` split on whitespace (line 46),
presence of `$GPODDER_MANPATH_NO_SHARE` (line 123), the `installing` flag of
line 28, and the `os.path.exists` oracle used on line 110. -/
structure Config where
  uis : Option (List Str)
  linguas : Option (List Str)
  manpathNoShare : Bool
  installing : Bool
  pathExists : Str → Bool

/-- `os.path.join("share", "gpodder", "ui")` (line 56). -/
def shareGpodderUi : Str := "share/gpodder/ui".data

/-- `os.path.join("share", "locale")` (line 64). -/
def shareLocale : Str := "share/locale".data

/-- `os.path.join("share", "man")` (line 87). -/
def shareMan : Str := "share/man".data

/-- `os.path.join("share", folder)` for the `freedesktop_folders`
`("icons", "dbus-1", "applications")` of line 74. -/
def freedesktopShareFolders : List Str :=
  ["share/icons".data, "share/dbus-1".data, "share/applications".data]

/-- `uis_requiring_freedesktop`, a one-element tuple holding `gtk` (line 73). -/
def uisRequiringFreedesktop : List Str := ["gtk".data]

/-- Lines 55–61: skip a data folder under `share/gpodder/ui` when a UI
selection is active and no path segment is a selected UI. -/
def uiFilterSkip (cfg : Config) (dirpath : Str) : Bool :=
  match cfg.uis with
  | none => false
  | some uis =>
    pyStartswith dirpath shareGpodderUi &&
      !((pySplit '/' dirpath).any (fun part => uis.contains part))

/-- Lines 63–69: the translation filter.  `ok true` keeps the folder,
`ok false` skips it; when `$LINGUAS` is set and the path starts with
`share/locale`, `dirpath.split(os.sep, 3)` is unpacked into exactly four
variables, which raises `ValueError` when fewer than four parts come back. -/
def linguasCheck (cfg : Config) (dirpath : Str) : Except PyErr Bool :=
  match cfg.linguas with
  | none => .ok true
  | some linguas =>
    if pyStartswith dirpath shareLocale then
      let parts := pySplitN '/' 3 dirpath
      if parts.length == 4 then .ok (linguas.contains (parts.getD 2 []))
      else .error .valueError
    else .ok true

/-- Lines 71–84: skip freedesktop.org folders when a UI selection is active
and no selected UI requires desktop integration. -/
def freedesktopSkip (cfg : Config) (dirpath : Str) : Bool :=
  match cfg.uis with
  | none => false
  | some uis =>
    freedesktopShareFolders.any (fun folder => pyStartswith dirpath folder) &&
      !(uis.any (fun ui => uisRequiringFreedesktop.contains ui))

/-- Lines 89–97: keep a non-manpage file; keep `*.1` only when the
basename of some computed script equals the splitext root of the file. -/
def have_script (scripts : List Str) (filename : Str) : Bool :=
  if !(pyEndswith filename ".1".data) then true
  else scripts.any (fun s => pyBasename s == splitextRoot filename)

/-- Lines 100–114: join the directory and the file name, drop `.h` files,
drop `.in` files — raising `MissingFile` on the stripped target when
installing and the target is absent — and pass everything else through. -/
def convert_filename (cfg : Config) (dirpath : Str) (name : Str) :
    Except PyErr (Option Str) :=
  let filename := pyJoin dirpath name
  if pyEndswith filename ".h".data then .ok none
  else if pyEndswith filename ".in".data then
    let target := pyDropRight filename 3
    if cfg.installing && !(cfg.pathExists target) then .error (.missingFile target)
    else .ok none
  else .ok (some filename)

/-- Line 116: `[_f for _f in map(convert_filename, filenames) if _f]` —
conversion in list order (the first raised exception wins) with Python
truthiness dropping `None` and the empty string. -/
def convertAll (cfg : Config) (dirpath : Str) : List Str → Except PyErr (List Str)
  | [] => .ok []
  | g :: gs =>
    match convert_filename cfg dirpath g with
    | .error e => .error e
    | .ok r =>
      match convertAll cfg dirpath gs with
      | .error e => .error e
      | .ok rest =>
        match r with
        | none => .ok rest
        | some f => .ok (if f.isEmpty then rest else f :: rest)

/-- Lines 117–124: when the folder path starts with `share/man` and
`$GPODDER_MANPATH_NO_SHARE` is present, every occurrence of `share/man` in
the path is replaced by `man`. -/
def rewriteDir (cfg : Config) (dirpath : Str) : Str :=
  if pyStartswith dirpath shareMan then
    if cfg.manpathNoShare then pyReplace dirpath shareMan "man".data else dirpath
  else dirpath

/-- One iteration of the `find_data_files` walk loop (lines 51–126) on a
single walk entry: `ok none` means the folder yields nothing, `ok (some p)`
means it yields the pair `p`, `error e` means the iteration raised. -/
def processDir (cfg : Config) (scripts : List Str) (entry : Str × List Str) :
    Except PyErr (Option (Str × List Str)) :=
  let dirpath := entry.1
  let filenames := entry.2
  if filenames.isEmpty then .ok none
  else if uiFilterSkip cfg dirpath then .ok none
  else
    match linguasCheck cfg dirpath with
    | .error e => .error e
    | .ok false => .ok none
    | .ok true =>
      if freedesktopSkip cfg dirpath then .ok none
      else
        let filenames2 :=
          if pyStartswith dirpath shareMan then filenames.filter (have_script scripts)
          else filenames
        match convertAll cfg dirpath filenames2 with
        | .error e => .error e
        | .ok converted =>
          if converted.isEmpty then .ok none
          else .ok (some (rewriteDir cfg dirpath, converted))

/-- `find_data_files` (lines 44–126) over an explicit walk of `share`, as
consumed by `list(...)` on line 184: entries in walk order, the first raised
exception aborting the whole construction.  (The enclosing `sorted` only
permutes the result and is not modelled; every property stated below is a
membership or error property, which sorting preserves.) -/
def find_data_files (cfg : Config) (scripts : List Str) :
    List (Str × List Str) → Except PyErr (List (Str × List Str))
  | [] => .ok []
  | e :: es =>
    match processDir cfg scripts e with
    | .error err => .error err
    | .ok r =>
      match find_data_files cfg scripts es with
      | .error err => .error err
      | .ok rest =>
        match r with
        | none => .ok rest
        | some p => .ok (p :: rest)

/-- Lines 136–138: `dirpath.split(os.sep)`, `pop(0)`, `'.'.join(...)`. -/
def packageName (dirpath : Str) : Str :=
  List.intercalate ['.'] ((pySplit '/' dirpath).drop 1)

/-- Lines 140–149: with a UI selection active, skip the package when some
path segment (root segment dropped) ends in `"ui"` and its `p[:-2]` is not a
selected UI. -/
def packageSkip (cfg : Config) (dirparts : List Str) : Bool :=
  match cfg.uis with
  | none => false
  | some uis =>
    (dirparts.filter (fun p => pyEndswith p "ui".data)).any
      (fun p => !(uis.contains (pyDropRight p 2)))

/-- `find_packages` (lines 129–152) over an explicit walk of `src/gpodder`:
a directory yields its dotted package name when it holds `__init__.py` and
is not skipped by the UI filter. -/
def find_packages (cfg : Config) : List (Str × List Str) → List Str
  | [] => []
  | (d, fs) :: es =>
    if fs.contains "__init__.py".data then
      if packageSkip cfg ((pySplit '/' d).drop 1) then find_packages cfg es
      else packageName d :: find_packages cfg es
    else find_packages cfg es

/-- Lines 157–166: the `file_checks` dispatch — `gpo` needs `cli`
selected, `gpodder` needs some UI of the tuple holding only `gtk` selected, any other name
is always installed (only consulted when a UI selection is active). -/
def script_included (cfg : Config) (filename : Str) : Bool :=
  match cfg.uis with
  | none => true
  | some uis =>
    if filename == "gpo".data then uis.contains "cli".data
    else if filename == "gpodder".data then
      uisRequiringFreedesktop.any (fun ui => uis.contains ui)
    else true

/-- `find_scripts` (lines 155–170) over an explicit walk of `bin`: every
surviving file is yielded as `os.path.join(dirpath, filename)`. -/
def find_scripts (cfg : Config) : List (Str × List Str) → List Str
  | [] => []
  | (d, fs) :: es =>
    (fs.filter (script_included cfg)).map (pyJoin d) ++ find_scripts cfg es

/-- Split `s` as `a ++ pat ++ b` with `a` as long as possible (the split a
greedy leading `(.*)` makes before a literal `pat`); `none` when `pat` does
not occur in `s`.  Only used with the nonempty pattern `" <"`. -/
def rfindSplit (pat : Str) : Str → Option (Str × Str)
  | [] => none
  | c :: rest =>
    match rfindSplit pat rest with
    | some p => some (c :: p.1, p.2)
    | none =>
      if pat.isPrefixOf (c :: rest) then some ([], (c :: rest).drop pat.length)
      else none

/-- `re.match` of the anchored pattern `(.*) <(.*)>` against `s` for a single-line `s` (the author field
of the metadata; `.` does not cross newlines and none occur there): the
string must end in `'>'`, and the greedy first group extends to the last
occurrence of `" <"` in the rest.  `none` when the pattern fails to match. -/
def parseAuthorMatch (s : Str) : Option (Str × Str) :=
  match s.getLast? with
  | some c => if c = '>' then rfindSplit " <".data s.dropLast else none
  | none => none

/-- Line 34: `author, email = re.match(...).groups()` with the anchored pattern `(.*) <(.*)>` —
a failed match yields `None`, and `.groups()` on `None` raises a raw
`AttributeError`, unguarded by any handler. -/
def authorEmail (s : Str) : Except PyErr (Str × Str) :=
  match parseAuthorMatch s with
  | none => .error .attributeError
  | some p => .ok p

/-- What the process does after the `try` block: call the packaging backend,
or print the remediation message and exit 1, or die with a traceback from an
exception no handler catches. -/
inductive Outcome where
  | backendInvoked : List Str → List Str → List (Str × List Str) → Outcome
  | exitRemediation : Str → Outcome
  | exitTraceback : PyErr → Outcome
deriving DecidableEq, Repr

/-- The attribute lookup `mf.message` on line 191.  `MissingFile` (line 37)
derives from `BaseException` and defines no `message` attribute, and in
Python 3 `BaseException` itself has none (the 2.x `message` attribute was
removed in 3.0), so the lookup raises `AttributeError` regardless of the
argument the exception was constructed with. -/
def missingFileMessageAttr (_mfArg : Str) : Except PyErr Str :=
  .error .attributeError

/-- Lines 181–209: build the three lists inside `try`; only `MissingFile` is
caught, and its handler formats `mf.message` into the remediation text
before `sys.exit(1)`.  An exception raised inside the handler — or any
non-`MissingFile` exception from the walk — escapes as a traceback (the
interpreter then also exits with a nonzero status, but without the
user-facing message). -/
def topLevel (cfg : Config) (pkgWalk scrWalk dataWalk : List (Str × List Str)) :
    Outcome :=
  let packages := find_packages cfg pkgWalk
  let scripts := find_scripts cfg scrWalk
  match find_data_files cfg scripts dataWalk with
  | .ok dataFiles => .backendInvoked packages scripts dataFiles
  | .error (.missingFile p) =>
    match missingFileMessageAttr p with
    | .ok msg => .exitRemediation msg
    | .error e => .exitTraceback e
  | .error e => .exitTraceback e

/-! Concrete configurations used by the witnesses and counterexamples
below, and a small accessor. -/

def cfgC4 : Config :=
  { uis := some ["gtk".data], linguas := none, manpathNoShare := false,
    installing := false, pathExists := fun _ => false }

def cfgC5 : Config :=
  { uis := none, linguas := none, manpathNoShare := false,
    installing := false, pathExists := fun _ => false }

def cfgC8 : Config :=
  { uis := some ["cli".data], linguas := none, manpathNoShare := false,
    installing := false, pathExists := fun _ => false }

def cfgC10 : Config :=
  { uis := none, linguas := some ["de".data], manpathNoShare := false,
    installing := false, pathExists := fun _ => false }

def cfgC6x : Config :=
  { uis := none, linguas := some ["de".data], manpathNoShare := false,
    installing := false, pathExists := fun _ => false }

def cfgC6w : Config :=
  { uis := none, linguas := some ["de".data], manpathNoShare := false,
    installing := false, pathExists := fun _ => false }

def cfgC7w : Config :=
  { uis := none, linguas := none, manpathNoShare := true,
    installing := false, pathExists := fun _ => false }

def cfgC7 : Config :=
  { uis := none, linguas := none, manpathNoShare := true,
    installing := false, pathExists := fun _ => false }

def cfgC3w : Config :=
  { uis := none, linguas := none, manpathNoShare := false,
    installing := false, pathExists := fun _ => false }

def cfgC3 : Config :=
  { uis := none, linguas := none, manpathNoShare := false,
    installing := false, pathExists := fun _ => false }

def cfgC1b : Config :=
  { uis := none, linguas := none, manpathNoShare := false,
    installing := true, pathExists := fun _ => false }

def cfgC1c : Config :=
  { uis := none, linguas := none, manpathNoShare := false,
    installing := true,
    pathExists := fun p => p == "share/doc/news".data }

def cfgC1 : Config :=
  { uis := none, linguas := none, manpathNoShare := false,
    installing := true,
    pathExists := fun p => p == "share/data/a.h".data }

/-- The files of an optional yielded pair (`[]` when the folder yields
nothing). -/
def filesOf : Option (Str × List Str) → List Str
  | none => []
  | some p => p.2

/-! Bridging lemmas for the string primitives -/

lemma pyStartswith_iff {s p : Str} : pyStartswith s p = true ↔ p <+: s := by
  simp [pyStartswith]

lemma pyEndswith_iff {s p : Str} : pyEndswith s p = true ↔ p <:+ s := by
  simp [pyEndswith]

/-- Two incompatible literal prefixes cannot both begin the same path
(shorter-literal-first version). -/
lemma pyStartswith_conflict {p q : Str} (hlen : p.length ≤ q.length)
    (hpq : ¬ p <+: q) {d : Str} (hp : pyStartswith d p = true) :
    pyStartswith d q = false := by
  by_contra hcon
  rw [Bool.not_eq_false, pyStartswith_iff] at hcon
  rw [pyStartswith_iff] at hp
  exact hpq (List.prefix_of_prefix_length_le hp hcon hlen)

/-- Two incompatible literal prefixes cannot both begin the same path
(shorter-literal-second version). -/
lemma pyStartswith_conflict' {p q : Str} (hlen : q.length ≤ p.length)
    (hqp : ¬ q <+: p) {d : Str} (hp : pyStartswith d p = true) :
    pyStartswith d q = false := by
  by_contra hcon
  rw [Bool.not_eq_false, pyStartswith_iff] at hcon
  rw [pyStartswith_iff] at hp
  exact hqp (List.prefix_of_prefix_length_le hcon hp hlen)

/-- A suffix without a slash is a suffix of `os.path.join(d, x)` exactly when
it is a suffix of the final component `x`: it cannot straddle the separator. -/
lemma pyEndswith_pyJoin {t : Str} (hs : '/' ∉ t) (d x : Str) :
    pyEndswith (pyJoin d x) t = pyEndswith x t := by
  rw [Bool.eq_iff_iff, pyEndswith_iff, pyEndswith_iff, pyJoin]
  constructor
  · intro h
    have hb : ('/' :: x) <:+ d ++ '/' :: x := List.suffix_append d ('/' :: x)
    rcases Nat.le_total t.length ('/' :: x).length with hle | hgt
    · have htb : t <:+ '/' :: x := List.suffix_of_suffix_length_le h hb hle
      rcases Nat.lt_or_ge t.length (x.length + 1) with hle2 | hgt2
      · exact List.suffix_of_suffix_length_le htb (List.suffix_cons '/' x)
          (Nat.lt_succ_iff.mp hle2)
      · have : t = '/' :: x := htb.eq_of_length_le (by simpa using hgt2)
        exact absurd (this ▸ List.mem_cons_self '/' x) hs
    · have hbt : ('/' :: x) <:+ t := List.suffix_of_suffix_length_le hb h hgt
      exact absurd (hbt.subset (List.mem_cons_self '/' x)) hs
  · intro h
    exact h.trans ((List.suffix_cons '/' x).trans (List.suffix_append d ('/' :: x)))

/-! Which directory-level filters can touch which subtree

The five literal roots `share/gpodder/ui`, `share/locale`, `share/man`,
`share/icons`, `share/dbus-1`, `share/applications` are pairwise
incompatible as string prefixes, so a path that starts with one of them is
untouched by the filters keyed on the others. -/

lemma uiFilterSkip_of_other {cfg : Config} {d : Str}
    (h : pyStartswith d shareGpodderUi = false) : uiFilterSkip cfg d = false := by
  cases hu : cfg.uis <;> simp [uiFilterSkip, hu, h]

lemma linguasCheck_of_other {cfg : Config} {d : Str}
    (h : pyStartswith d shareLocale = false) : linguasCheck cfg d = .ok true := by
  cases hl : cfg.linguas <;> simp [linguasCheck, hl, h]

lemma freedesktopSkip_of_other {cfg : Config} {d : Str}
    (h1 : pyStartswith d "share/icons".data = false)
    (h2 : pyStartswith d "share/dbus-1".data = false)
    (h3 : pyStartswith d "share/applications".data = false) :
    freedesktopSkip cfg d = false := by
  cases hu : cfg.uis <;>
    simp [freedesktopSkip, hu, freedesktopShareFolders, h1, h2, h3]

/-- A path under `share/locale` passes the UI, freedesktop and manpage
prefix tests. -/
lemma locale_prefix_facts {d : Str} (h : pyStartswith d shareLocale = true) :
    pyStartswith d shareGpodderUi = false ∧
    pyStartswith d "share/icons".data = false ∧
    pyStartswith d "share/dbus-1".data = false ∧
    pyStartswith d "share/applications".data = false ∧
    pyStartswith d shareMan = false := by
  refine ⟨?_, ?_, ?_, ?_, ?_⟩
  · exact pyStartswith_conflict (p := shareLocale) (by decide) (by decide) h
  · exact pyStartswith_conflict' (p := shareLocale) (by decide) (by decide) h
  · exact pyStartswith_conflict' (p := shareLocale) (by decide) (by decide) h
  · exact pyStartswith_conflict (p := shareLocale) (by decide) (by decide) h
  · exact pyStartswith_conflict' (p := shareLocale) (by decide) (by decide) h

/-- A path under `share/man` passes the UI, language and freedesktop
prefix tests. -/
lemma man_prefix_facts {d : Str} (h : pyStartswith d shareMan = true) :
    pyStartswith d shareGpodderUi = false ∧
    pyStartswith d shareLocale = false ∧
    pyStartswith d "share/icons".data = false ∧
    pyStartswith d "share/dbus-1".data = false ∧
    pyStartswith d "share/applications".data = false := by
  refine ⟨?_, ?_, ?_, ?_, ?_⟩
  · exact pyStartswith_conflict (p := shareMan) (by decide) (by decide) h
  · exact pyStartswith_conflict (p := shareMan) (by decide) (by decide) h
  · exact pyStartswith_conflict (p := shareMan) (by decide) (by decide) h
  · exact pyStartswith_conflict (p := shareMan) (by decide) (by decide) h
  · exact pyStartswith_conflict (p := shareMan) (by decide) (by decide) h

/-! Shape lemmas for `processDir` -/

/-- A directory that passes all three directory-level filters reduces to the
manpage filter followed by filename conversion. -/
lemma processDir_pass {cfg : Config} {scripts : List Str} {d : Str} {fs : List Str}
    (hfs : fs ≠ []) (hui : uiFilterSkip cfg d = false)
    (hlin : linguasCheck cfg d = .ok true) (hfree : freedesktopSkip cfg d = false) :
    processDir cfg scripts (d, fs) =
      match convertAll cfg d
          (if pyStartswith d shareMan then fs.filter (have_script scripts) else fs) with
      | .error e => .error e
      | .ok converted =>
        if converted.isEmpty then Except.ok none
        else .ok (some (rewriteDir cfg d, converted)) := by
  have hfs' : fs.isEmpty = false := by simpa using hfs
  simp only [processDir, hfs', hui, hlin, hfree, Bool.false_eq_true, if_false]

/-- Under `share/locale` only the language filter and the conversion act;
the output directory path is never rewritten. -/
lemma processDir_locale {cfg : Config} {scripts : List Str} {d : Str} {fs : List Str}
    (hloc : pyStartswith d shareLocale = true) (hfs : fs ≠ []) :
    processDir cfg scripts (d, fs) =
      match linguasCheck cfg d with
      | .error e => .error e
      | .ok false => .ok none
      | .ok true =>
        match convertAll cfg d fs with
        | .error e => .error e
        | .ok converted =>
          if converted.isEmpty then Except.ok none
          else .ok (some (d, converted)) := by
  obtain ⟨h1, h2, h3, h4, h5⟩ := locale_prefix_facts hloc
  have hfs' : fs.isEmpty = false := by simpa using hfs
  have hrw : rewriteDir cfg d = d := by simp [rewriteDir, h5]
  simp only [processDir, hfs', uiFilterSkip_of_other h1,
    freedesktopSkip_of_other h2 h3 h4, h5, hrw, Bool.false_eq_true, if_false]

/-- Under `share/man` only the manpage filter, the conversion and the
path rewrite act. -/
lemma processDir_man {cfg : Config} {scripts : List Str} {d : Str} {fs : List Str}
    (hman : pyStartswith d shareMan = true) (hfs : fs ≠ []) :
    processDir cfg scripts (d, fs) =
      match convertAll cfg d (fs.filter (have_script scripts)) with
      | .error e => .error e
      | .ok converted =>
        if converted.isEmpty then Except.ok none
        else .ok (some (rewriteDir cfg d, converted)) := by
  obtain ⟨h1, h2, h3, h4, h5⟩ := man_prefix_facts hman
  rw [processDir_pass hfs (uiFilterSkip_of_other h1)
    (linguasCheck_of_other h2) (freedesktopSkip_of_other h3 h4 h5), hman]
  simp

/-! Lemmas about filename conversion -/

lemma pyJoin_inj {d x y : Str} (h : pyJoin d x = pyJoin d y) : x = y := by
  simpa [pyJoin] using h

lemma pyJoin_isEmpty (d x : Str) : (pyJoin d x).isEmpty = false := by
  simp [pyJoin]

/-- A filename that converts to a manifest entry converts to its joined path,
and that path ends in neither `.h` nor `.in`. -/
lemma convert_filename_ok_some {cfg : Config} {d g f : Str}
    (h : convert_filename cfg d g = .ok (some f)) :
    f = pyJoin d g ∧ pyEndswith f ".h".data = false ∧
      pyEndswith f ".in".data = false := by
  simp only [convert_filename] at h
  by_cases h1 : pyEndswith (pyJoin d g) ".h".data = true
  · simp [h1] at h
  · rw [Bool.not_eq_true] at h1
    by_cases h2 : pyEndswith (pyJoin d g) ".in".data = true
    · simp only [h1, h2, Bool.false_eq_true, if_false, if_true] at h
      split at h <;> simp at h
    · rw [Bool.not_eq_true] at h2
      simp only [h1, h2, Bool.false_eq_true, if_false] at h
      injection h with h
      injection h with h
      exact ⟨h.symm, h ▸ h1, h ▸ h2⟩

/-- Converting the `.in` file `x ++ ".in"`: always dropped from the manifest,
raising `MissingFile` on the joined stripped path when installing and the
target is absent. -/
lemma convert_filename_in (cfg : Config) (d x : Str) :
    convert_filename cfg d (x ++ ".in".data) =
      if cfg.installing && !(cfg.pathExists (pyJoin d x)) then
        .error (.missingFile (pyJoin d x))
      else .ok none := by
  have hin : pyEndswith (pyJoin d (x ++ ".in".data)) ".in".data = true := by
    rw [pyEndswith_pyJoin (by decide), pyEndswith_iff]
    exact List.suffix_append x _
  have hh : pyEndswith (pyJoin d (x ++ ".in".data)) ".h".data = false := by
    rw [pyEndswith_pyJoin (by decide)]
    by_contra hc
    rw [Bool.not_eq_false, pyEndswith_iff] at hc
    have h2 : ".in".data <:+ x ++ ".in".data := List.suffix_append x _
    exact absurd (List.suffix_of_suffix_length_le hc h2 (by decide)) (by decide)
  have hsplit : pyJoin d (x ++ ".in".data) = pyJoin d x ++ ".in".data := by
    simp [pyJoin]
  have hdrop : pyDropRight (pyJoin d (x ++ ".in".data)) 3 = pyJoin d x := by
    rw [hsplit, pyDropRight]
    apply List.take_left'
    simp
  simp only [convert_filename, hin, hh, hdrop, Bool.false_eq_true, if_false, if_true]

/-- Every file in a conversion result comes from converting some input file. -/
lemma convertAll_mem {cfg : Config} {d : Str} {fs out : List Str}
    (h : convertAll cfg d fs = .ok out) :
    ∀ f ∈ out, ∃ g ∈ fs, convert_filename cfg d g = .ok (some f) := by
  induction fs generalizing out with
  | nil =>
    simp only [convertAll] at h
    injection h with h
    subst h
    simp
  | cons g gs ih =>
    simp only [convertAll] at h
    cases hc : convert_filename cfg d g with
    | error e => rw [hc] at h; exact absurd h (by simp)
    | ok r =>
      rw [hc] at h
      cases hrest : convertAll cfg d gs with
      | error e => rw [hrest] at h; exact absurd h (by simp)
      | ok rest =>
        rw [hrest] at h
        cases r with
        | none =>
          injection h with h
          subst h
          intro f hf
          obtain ⟨g', hg', hcg'⟩ := ih hrest f hf
          exact ⟨g', List.mem_cons_of_mem _ hg', hcg'⟩
        | some f0 =>
          injection h with h
          subst h
          intro f hf
          by_cases hf0 : f0.isEmpty = true
          · rw [if_pos hf0] at hf
            obtain ⟨g', hg', hcg'⟩ := ih hrest f hf
            exact ⟨g', List.mem_cons_of_mem _ hg', hcg'⟩
          · rw [Bool.not_eq_true] at hf0
            rw [if_neg (by simp [hf0])] at hf
            rcases List.mem_cons.mp hf with hfe | hf
            · exact ⟨g, List.mem_cons_self g gs, hfe ▸ hc⟩
            · obtain ⟨g', hg', hcg'⟩ := ih hrest f hf
              exact ⟨g', List.mem_cons_of_mem _ hg', hcg'⟩

/-- Conversely, a (nonempty) converted file of an input file is in the
conversion result. -/
lemma convertAll_mem_of {cfg : Config} {d : Str} {fs out : List Str}
    (h : convertAll cfg d fs = .ok out) {g f : Str} (hg : g ∈ fs)
    (hc : convert_filename cfg d g = .ok (some f)) (hne : f.isEmpty = false) :
    f ∈ out := by
  induction fs generalizing out with
  | nil => exact absurd hg (List.not_mem_nil g)
  | cons a l ih =>
    simp only [convertAll] at h
    cases ha : convert_filename cfg d a with
    | error e => rw [ha] at h; exact absurd h (by simp)
    | ok r =>
      rw [ha] at h
      cases hrest : convertAll cfg d l with
      | error e => rw [hrest] at h; exact absurd h (by simp)
      | ok rest =>
        rw [hrest] at h
        rcases List.mem_cons.mp hg with hga | hgl
        · subst hga
          rw [ha] at hc
          injection hc with hc
          subst hc
          simp only [hne, Bool.false_eq_true, if_false] at h
          injection h with h
          subst h
          exact List.mem_cons_self f rest
        · have hfr : f ∈ rest := ih hrest hgl
          cases r with
          | none => injection h with h; subst h; exact hfr
          | some f0 =>
            injection h with h
            subst h
            split <;> simp [hfr]

/-- When every file converts without raising, the whole conversion succeeds. -/
lemma convertAll_exists_ok {cfg : Config} {d : Str} {fs : List Str}
    (h : ∀ g ∈ fs, ∃ v, convert_filename cfg d g = .ok v) :
    ∃ out, convertAll cfg d fs = .ok out := by
  induction fs with
  | nil => exact ⟨[], rfl⟩
  | cons g gs ih =>
    obtain ⟨v, hv⟩ := h g (List.mem_cons_self g gs)
    obtain ⟨out, hout⟩ := ih (fun g' hg' => h g' (List.mem_cons_of_mem _ hg'))
    cases v with
    | none => exact ⟨out, by simp [convertAll, hv, hout]⟩
    | some f =>
      refine ⟨if f.isEmpty then out else f :: out, ?_⟩
      simp [convertAll, hv, hout]

/-- The first raising file (everything before it converting cleanly) aborts
the whole conversion with its error. -/
lemma convertAll_error_split {cfg : Config} {d : Str} {fs₁ fs₂ : List Str}
    {g : Str} {e : PyErr}
    (h₁ : ∀ g' ∈ fs₁, ∃ v, convert_filename cfg d g' = .ok v)
    (hg : convert_filename cfg d g = .error e) :
    convertAll cfg d (fs₁ ++ g :: fs₂) = .error e := by
  induction fs₁ with
  | nil => simp [convertAll, hg]
  | cons a l ih =>
    obtain ⟨v, hv⟩ := h₁ a (List.mem_cons_self a l)
    have hrest := ih (fun g' hg' => h₁ g' (List.mem_cons_of_mem _ hg'))
    simp [convertAll, hv, hrest]

/-! Lemmas about `processDir` and `find_data_files` -/

/-- Any yielded pair consists of the (possibly rewritten) directory and the
successful conversion of the (possibly manpage-filtered) file list. -/
lemma processDir_ok_some {cfg : Config} {scripts : List Str} {d : Str}
    {fs : List Str} {d' : Str} {fs' : List Str}
    (h : processDir cfg scripts (d, fs) = .ok (some (d', fs'))) :
    d' = rewriteDir cfg d ∧
      convertAll cfg d
        (if pyStartswith d shareMan then fs.filter (have_script scripts)
         else fs) = .ok fs' := by
  cases hfs : fs.isEmpty with
  | true => simp [processDir, hfs] at h
  | false =>
    cases hui : uiFilterSkip cfg d with
    | true => simp [processDir, hfs, hui] at h
    | false =>
      cases hl : linguasCheck cfg d with
      | error e => simp [processDir, hfs, hui, hl] at h
      | ok keep =>
        cases keep with
        | false => simp [processDir, hfs, hui, hl] at h
        | true =>
          cases hfree : freedesktopSkip cfg d with
          | true => simp [processDir, hfs, hui, hl, hfree] at h
          | false =>
            cases hc : convertAll cfg d
                (if pyStartswith d shareMan then fs.filter (have_script scripts)
                 else fs) with
            | error e => simp [processDir, hfs, hui, hl, hfree, hc] at h
            | ok conv =>
              cases hconv : conv.isEmpty with
              | true => simp [processDir, hfs, hui, hl, hfree, hc, hconv] at h
              | false =>
                simp only [processDir, hfs, hui, hl, hfree, hc, hconv,
                  Bool.false_eq_true, if_false, Except.ok.injEq,
                  Option.some.injEq, Prod.mk.injEq] at h
                exact ⟨h.1.symm, by rw [← h.2]⟩

lemma find_data_files_error_head {cfg : Config} {scripts : List Str}
    {e : Str × List Str} {rest : List (Str × List Str)} {err : PyErr}
    (h : processDir cfg scripts e = .error err) :
    find_data_files cfg scripts (e :: rest) = .error err := by
  simp [find_data_files, h]

/-- Every pair of a successful manifest comes from processing some walk
entry. -/
lemma find_data_files_mem {cfg : Config} {scripts : List Str}
    {walk res : List (Str × List Str)}
    (h : find_data_files cfg scripts walk = .ok res) :
    ∀ q ∈ res, ∃ e ∈ walk, processDir cfg scripts e = .ok (some q) := by
  induction walk generalizing res with
  | nil =>
    simp only [find_data_files] at h
    injection h with h
    subst h
    simp
  | cons a l ih =>
    simp only [find_data_files] at h
    cases ha : processDir cfg scripts a with
    | error err => rw [ha] at h; exact absurd h (by simp)
    | ok r =>
      rw [ha] at h
      cases hrest : find_data_files cfg scripts l with
      | error err => rw [hrest] at h; exact absurd h (by simp)
      | ok rest =>
        rw [hrest] at h
        cases r with
        | none =>
          injection h with h
          subst h
          intro q hq
          obtain ⟨e, he, hpe⟩ := ih hrest q hq
          exact ⟨e, List.mem_cons_of_mem _ he, hpe⟩
        | some p =>
          injection h with h
          subst h
          intro q hq
          rcases List.mem_cons.mp hq with hqp | hq
          · exact ⟨a, List.mem_cons_self a l, hqp ▸ ha⟩
          · obtain ⟨e, he, hpe⟩ := ih hrest q hq
            exact ⟨e, List.mem_cons_of_mem _ he, hpe⟩

/-! Fuel lemmas for `pySplitN` / `pySplit` -/

lemma breakAtChar_eq {sep : Char} {s a b : Str}
    (h : breakAtChar sep s = some (a, b)) : s = a ++ sep :: b := by
  induction s generalizing a b with
  | nil => cases h
  | cons c r ih =>
    simp only [breakAtChar] at h
    split at h
    next hc =>
      injection h with h
      cases h
      simp [hc]
    next hc =>
      cases hr : breakAtChar sep r with
      | none => rw [hr] at h; cases h
      | some p =>
        rw [hr] at h
        injection h with h
        cases h
        simp [ih hr]

lemma breakAtChar_length {sep : Char} {s a b : Str}
    (h : breakAtChar sep s = some (a, b)) : b.length < s.length := by
  rw [breakAtChar_eq h]
  simp [List.length_append]
  omega

lemma pySplitN_succ_some {sep : Char} {n : Nat} {s a b : Str}
    (hb : breakAtChar sep s = some (a, b)) :
    pySplitN sep (n + 1) s = a :: pySplitN sep n b := by
  simp [pySplitN, hb]

lemma pySplitN_succ_none {sep : Char} {n : Nat} {s : Str}
    (hb : breakAtChar sep s = none) : pySplitN sep (n + 1) s = [s] := by
  simp [pySplitN, hb]

lemma pySplitN_ne_nil {sep : Char} (n : Nat) (s : Str) : pySplitN sep n s ≠ [] := by
  cases n with
  | zero => simp [pySplitN]
  | succ n =>
    cases hb : breakAtChar sep s with
    | none => rw [pySplitN_succ_none hb]; simp
    | some p => rw [pySplitN_succ_some (a := p.1) (b := p.2) (by simpa using hb)]; simp

/-- Any two sufficient fuels split identically. -/
lemma pySplitN_fuel {sep : Char} : ∀ (n m : Nat) (s : Str),
    s.length ≤ n → s.length ≤ m → pySplitN sep n s = pySplitN sep m s := by
  intro n
  induction n with
  | zero =>
    intro m s hn _
    have hs : s = [] := List.length_eq_zero.mp (Nat.le_zero.mp hn)
    subst hs
    cases m with
    | zero => rfl
    | succ m' => rw [pySplitN_succ_none (by simp [breakAtChar])]; rfl
  | succ n ih =>
    intro m s hn hm
    cases m with
    | zero =>
      have hs : s = [] := List.length_eq_zero.mp (Nat.le_zero.mp hm)
      subst hs
      rw [pySplitN_succ_none (by simp [breakAtChar])]
      rfl
    | succ m' =>
      cases hb : breakAtChar sep s with
      | none => rw [pySplitN_succ_none hb, pySplitN_succ_none hb]
      | some p =>
        obtain ⟨a, b⟩ := p
        have hlen := breakAtChar_length hb
        rw [pySplitN_succ_some hb, pySplitN_succ_some hb,
          ih m' b (by omega) (by omega)]

/-- When a larger fuel produces at most `n + 1` parts, fuel `n` produces the
same split. -/
lemma pySplitN_trunc {sep : Char} : ∀ (n m : Nat) (s : Str), n ≤ m →
    (pySplitN sep m s).length ≤ n + 1 → pySplitN sep n s = pySplitN sep m s := by
  intro n
  induction n with
  | zero =>
    intro m s _ hlen
    cases m with
    | zero => rfl
    | succ m' =>
      cases hb : breakAtChar sep s with
      | none => rw [pySplitN_succ_none hb]; rfl
      | some p =>
        obtain ⟨a, b⟩ := p
        rw [pySplitN_succ_some hb] at hlen
        simp only [List.length_cons] at hlen
        have h0 : (pySplitN sep m' b).length = 0 := by omega
        exact absurd (List.length_eq_zero.mp h0) (pySplitN_ne_nil m' b)
  | succ n ih =>
    intro m s hnm hlen
    cases m with
    | zero => exact absurd hnm (by omega)
    | succ m' =>
      cases hb : breakAtChar sep s with
      | none => rw [pySplitN_succ_none hb, pySplitN_succ_none hb]
      | some p =>
        obtain ⟨a, b⟩ := p
        rw [pySplitN_succ_some hb] at hlen
        simp only [List.length_cons] at hlen
        rw [pySplitN_succ_some hb, pySplitN_succ_some hb,
          ih m' b (by omega) (by omega)]

/-- Fewer than four path components in the full split means
`split(os.sep, 3)` returns that same (short) split. -/
lemma pySplitN_three_of_lt_four {d : Str}
    (h : (pySplit '/' d).length < 4) : pySplitN '/' 3 d = pySplit '/' d := by
  rw [pySplit] at h ⊢
  rcases Nat.le_total d.length 3 with hle | hge
  · exact pySplitN_fuel 3 d.length d hle (Nat.le_refl _)
  · exact pySplitN_trunc 3 d.length d hge (by omega)

lemma contains_iff_mem {l : List Str} {a : Str} : l.contains a = true ↔ a ∈ l := by
  simp [List.contains]

lemma packageSkip_iff {cfg : Config} {u : List Str} (hu : cfg.uis = some u)
    {dirparts : List Str} :
    packageSkip cfg dirparts = true ↔
      ∃ p ∈ dirparts, pyEndswith p "ui".data = true ∧ pyDropRight p 2 ∉ u := by
  simp only [packageSkip, hu, List.any_eq_true, List.mem_filter, List.contains,
    Bool.not_eq_true', List.elem_eq_mem, decide_eq_false_iff_not]
  constructor
  · rintro ⟨p, ⟨hp, he⟩, hnc⟩
    exact ⟨p, hp, he, hnc⟩
  · rintro ⟨p, hp, he, hnc⟩
    exact ⟨p, ⟨hp, he⟩, hnc⟩

/-! Claim theorems -/

/-- C4: with UI filtering active, a candidate package directory (one whose
walk entry holds `__init__.py`) is excluded from the package list exactly
when some path segment after the dropped root segment ends in `"ui"` and
that segment with `"ui"` stripped is not in the UI selection; otherwise its
dotted package name is included. -/
theorem c4_package_ui_filter (cfg : Config) (u : List Str) (d : Str)
    (fs : List Str) (rest : List (Str × List Str)) (hu : cfg.uis = some u)
    (hcand : "__init__.py".data ∈ fs) :
    ((∃ p ∈ (pySplit '/' d).drop 1,
        pyEndswith p "ui".data = true ∧ pyDropRight p 2 ∉ u) →
      find_packages cfg ((d, fs) :: rest) = find_packages cfg rest) ∧
    ((¬ ∃ p ∈ (pySplit '/' d).drop 1,
        pyEndswith p "ui".data = true ∧ pyDropRight p 2 ∉ u) →
      find_packages cfg ((d, fs) :: rest) =
        packageName d :: find_packages cfg rest) := by
  have hcon : fs.contains "__init__.py".data = true := contains_iff_mem.mpr hcand
  constructor
  · intro hex
    have hskip : packageSkip cfg ((pySplit '/' d).drop 1) = true :=
      (packageSkip_iff hu).mpr hex
    simp only [find_packages]
    rw [if_pos hcon, if_pos hskip]
  · intro hnex
    have hskip : packageSkip cfg ((pySplit '/' d).drop 1) ≠ true :=
      fun hc => hnex ((packageSkip_iff hu).mp hc)
    simp only [find_packages]
    rw [if_pos hcon, if_neg hskip]

theorem c4_witness :
    find_packages cfgC4 [("src/gpodder/gtkui".data, ["__init__.py".data])] =
      [packageName "src/gpodder/gtkui".data] :=
  (c4_package_ui_filter cfgC4 ["gtk".data] "src/gpodder/gtkui".data
    ["__init__.py".data] [] rfl (by decide)).2 (by decide)

/-- C5: when the UI-selection variable is unset no filtering occurs — every
walked directory holding the package marker contributes its package, and
every walked file under the scripts root contributes its script. -/
theorem c5_no_filtering_when_unset (cfg : Config) (hu : cfg.uis = none)
    (pkgWalk scrWalk : List (Str × List Str)) :
    (∀ d fs, (d, fs) ∈ pkgWalk → "__init__.py".data ∈ fs →
        packageName d ∈ find_packages cfg pkgWalk) ∧
    (∀ d fs g, (d, fs) ∈ scrWalk → g ∈ fs →
        pyJoin d g ∈ find_scripts cfg scrWalk) := by
  constructor
  · intro d fs hmem hinit
    induction pkgWalk with
    | nil => cases hmem
    | cons a l ih =>
      obtain ⟨d0, fs0⟩ := a
      rcases List.mem_cons.mp hmem with heq | hl
      · cases heq
        simp only [find_packages]
        rw [if_pos (contains_iff_mem.mpr hinit),
          if_neg (show packageSkip cfg ((pySplit '/' d).drop 1) ≠ true by
            simp [packageSkip, hu])]
        exact List.mem_cons_self _ _
      · simp only [find_packages]
        split
        · split
          · exact ih hl
          · exact List.mem_cons_of_mem _ (ih hl)
        · exact ih hl
  · intro d fs g hmem hg
    induction scrWalk with
    | nil => cases hmem
    | cons a l ih =>
      obtain ⟨d0, fs0⟩ := a
      rcases List.mem_cons.mp hmem with heq | hl
      · cases heq
        simp only [find_scripts]
        refine List.mem_append_left _ (List.mem_map_of_mem _ ?_)
        exact List.mem_filter.mpr ⟨hg, by simp [script_included, hu]⟩
      · simp only [find_scripts]
        exact List.mem_append_right _ (ih hl)

theorem c5_witness :
    packageName "src/gpodder/util".data ∈
      find_packages cfgC5 [("src/gpodder/util".data, ["__init__.py".data])] ∧
    pyJoin "bin".data "gpodder".data ∈
      find_scripts cfgC5 [("bin".data, ["gpodder".data])] :=
  ⟨(c5_no_filtering_when_unset cfgC5 rfl
        [("src/gpodder/util".data, ["__init__.py".data])]
        [("bin".data, ["gpodder".data])]).1 "src/gpodder/util".data
        ["__init__.py".data] (by decide) (by decide),
   (c5_no_filtering_when_unset cfgC5 rfl
        [("src/gpodder/util".data, ["__init__.py".data])]
        [("bin".data, ["gpodder".data])]).2 "bin".data ["gpodder".data]
        "gpodder".data (by decide) (by decide)⟩

/-- C8: with UI filtering active, script enumeration always includes a file
whose name is outside the fixed `file_checks` mapping, includes `gpo`
exactly when `"cli"` is selected, and includes `gpodder` exactly when
`"gtk"` is selected. -/
theorem c8_script_filter (cfg : Config) (u : List Str) (d g : Str)
    (fs : List Str) (hu : cfg.uis = some u) (hg : g ∈ fs) :
    (g ≠ "gpo".data → g ≠ "gpodder".data →
        pyJoin d g ∈ find_scripts cfg [(d, fs)]) ∧
    (g = "gpo".data →
        (pyJoin d g ∈ find_scripts cfg [(d, fs)] ↔ "cli".data ∈ u)) ∧
    (g = "gpodder".data →
        (pyJoin d g ∈ find_scripts cfg [(d, fs)] ↔ "gtk".data ∈ u)) := by
  have hmem : ∀ h : Str, pyJoin d h ∈ find_scripts cfg [(d, fs)] ↔
      h ∈ fs.filter (script_included cfg) := by
    intro h
    simp only [find_scripts, List.append_nil]
    constructor
    · intro hin
      obtain ⟨a, ha, hja⟩ := List.mem_map.mp hin
      rwa [← pyJoin_inj hja]
    · intro hin
      exact List.mem_map_of_mem _ hin
  refine ⟨fun h1 h2 => ?_, fun h1 => ?_, fun h1 => ?_⟩
  · refine (hmem g).mpr (List.mem_filter.mpr ⟨hg, ?_⟩)
    simp only [script_included, hu]
    rw [if_neg (by simpa using h1), if_neg (by simpa using h2)]
  · subst h1
    rw [hmem "gpo".data]
    simp [List.mem_filter, script_included, hu, hg, contains_iff_mem]
  · subst h1
    rw [hmem "gpodder".data]
    simp [List.mem_filter, script_included, hu, hg, contains_iff_mem,
      uisRequiringFreedesktop,
      (by decide : ("gpodder".data == "gpo".data) = false)]

theorem c8_witness :
    pyJoin "bin".data "gpo".data ∈
      find_scripts cfgC8 [("bin".data, ["gpo".data, "gpodder".data])] ∧
    pyJoin "bin".data "gpodder".data ∉
      find_scripts cfgC8 [("bin".data, ["gpo".data, "gpodder".data])] :=
  ⟨((c8_script_filter cfgC8 ["cli".data] "bin".data "gpo".data
        ["gpo".data, "gpodder".data] rfl (by decide)).2.1 rfl).mpr (by decide),
   fun h => absurd
    (((c8_script_filter cfgC8 ["cli".data] "bin".data "gpodder".data
        ["gpo".data, "gpodder".data] rfl (by decide)).2.2 rfl).mp h)
    (by decide)⟩

/-- C10: with a language selection set, a walked directory whose path starts
with the translations prefix but has fewer than four path components and
which contains files makes the enumeration raise the tuple-unpacking
`ValueError` — the directory is neither included nor skipped, and the error
aborts the whole construction. -/
theorem c10_unpack_crash (cfg : Config) (scripts : List Str) (d : Str)
    (fs : List Str) (sel : List Str) (rest : List (Str × List Str))
    (hsel : cfg.linguas = some sel)
    (hloc : pyStartswith d shareLocale = true)
    (hlen : (pySplit '/' d).length < 4)
    (hfs : fs ≠ []) :
    processDir cfg scripts (d, fs) = .error .valueError ∧
    find_data_files cfg scripts ((d, fs) :: rest) = .error .valueError := by
  have hne : ((pySplitN '/' 3 d).length == 4) = false := by
    rw [pySplitN_three_of_lt_four hlen]
    simp only [beq_eq_false_iff_ne, ne_eq]
    omega
  have hlc : linguasCheck cfg d = .error .valueError := by
    simp only [linguasCheck, hsel, hloc, if_true, hne, Bool.false_eq_true, if_false]
  have h1 : processDir cfg scripts (d, fs) = .error .valueError := by
    rw [processDir_locale hloc hfs, hlc]
  exact ⟨h1, find_data_files_error_head h1⟩

theorem c10_witness :
    processDir cfgC10 [] ("share/locale/de".data, ["gpodder.mo".data]) =
      .error .valueError :=
  (c10_unpack_crash cfgC10 [] "share/locale/de".data ["gpodder.mo".data]
    ["de".data] [] rfl (by decide) (by decide) (by decide)).1

/-- C2 (code bug): when `MissingFile` is raised on an actual install run it
is caught at the top level, but the lookup of `mf.message` in the handler fails —
`BaseException` has no `message` attribute in Python 3 — so the process dies
with an `AttributeError` traceback: the packaging backend is never invoked,
the exit status is nonzero, but the promised remediation message naming the
missing file is never printed. -/
theorem c2_missing_file_handler_bug :
    topLevel
        { uis := none, linguas := none, manpathNoShare := false,
          installing := true, pathExists := fun _ => false }
        [] [] [("share/x".data, ["y.in".data])] =
      .exitTraceback .attributeError ∧
    ∀ m : Str,
      topLevel
          { uis := none, linguas := none, manpathNoShare := false,
            installing := true, pathExists := fun _ => false }
          [] [] [("share/x".data, ["y.in".data])] ≠
        .exitRemediation m :=
  ⟨by decide, fun m h => by rw [(by decide :
      topLevel
          { uis := none, linguas := none, manpathNoShare := false,
            installing := true, pathExists := fun _ => false }
          [] [] [("share/x".data, ["y.in".data])] =
        Outcome.exitTraceback .attributeError)] at h; cases h⟩

/-! Lemmas about the author pattern -/

lemma rfindSplit_eq {pat s a b : Str}
    (h : rfindSplit pat s = some (a, b)) : s = a ++ pat ++ b := by
  induction s generalizing a b with
  | nil => cases h
  | cons c rest ih =>
    simp only [rfindSplit] at h
    cases hr : rfindSplit pat rest with
    | some p =>
      rw [hr] at h
      injection h with h
      cases h
      simp [ih hr]
    | none =>
      rw [hr] at h
      by_cases hp : pat.isPrefixOf (c :: rest) = true
      · rw [if_pos hp] at h
        injection h with h
        cases h
        obtain ⟨t, ht⟩ := List.isPrefixOf_iff_prefix.mp hp
        simp [← ht, List.drop_left]
      · rw [if_neg hp] at h
        cases h

lemma rfindSplit_isSome {pat : Str} (hpat : pat ≠ []) :
    ∀ (a b : Str), (rfindSplit pat (a ++ pat ++ b)).isSome = true := by
  intro a
  induction a with
  | nil =>
    intro b
    simp only [List.nil_append]
    cases hpt : pat with
    | nil => exact absurd hpt hpat
    | cons p0 pt =>
      subst hpt
      simp only [List.cons_append, rfindSplit]
      cases hr : rfindSplit (p0 :: pt) (pt ++ b) with
      | some p => simp
      | none =>
        have hp : (p0 :: pt).isPrefixOf (p0 :: (pt ++ b)) = true :=
          List.isPrefixOf_iff_prefix.mpr ⟨b, by simp⟩
        simp [hp]
  | cons c a' ih =>
    intro b
    simp only [List.cons_append, rfindSplit]
    cases hr : rfindSplit pat (a' ++ pat ++ b) with
    | some p => simp
    | none =>
      have hsome := ih b
      rw [hr] at hsome
      simp at hsome

lemma parseAuthorMatch_some {s n e : Str}
    (h : parseAuthorMatch s = some (n, e)) :
    s = n ++ " <".data ++ e ++ ['>'] := by
  simp only [parseAuthorMatch] at h
  cases hl : s.getLast? with
  | none => rw [hl] at h; cases h
  | some c =>
    rw [hl] at h
    have h2 : (if c = '>' then rfindSplit " <".data s.dropLast else none) =
        some (n, e) := h
    by_cases hc : c = '>'
    · rw [if_pos hc] at h2
      have hd := rfindSplit_eq h2
      have hs : s.dropLast ++ [c] = s :=
        List.dropLast_append_getLast? c (Option.mem_def.mpr hl)
      rw [← hs, hd, hc]
    · rw [if_neg hc] at h2
      cases h2

lemma parseAuthorMatch_of_decomp (n e : Str) :
    (parseAuthorMatch (n ++ " <".data ++ e ++ ['>'])).isSome = true := by
  have hl : (n ++ " <".data ++ e ++ ['>']).getLast? = some '>' :=
    List.getLast?_concat _
  simp only [parseAuthorMatch, hl]
  rw [if_pos trivial]
  have hdl : (n ++ " <".data ++ e ++ ['>']).dropLast = n ++ " <".data ++ e :=
    List.dropLast_concat
  rw [hdl]
  exact rfindSplit_isSome (show " <".data ≠ [] by decide) n e

/-- C9: metadata extraction of the author field.  For a single-line author
string: when no decomposition `Name ++ " <" ++ email ++ ">"` exists, the
pipeline fails with the raw unguarded `AttributeError` of `None.groups()` —
not the distinguished `MissingFile` and not a defaulted value; when the
pattern matches, the result is exactly the two (greedily) captured groups,
and a decomposition always makes the pattern match. -/
theorem c9_author_pattern (s : Str) (hnl : '\n' ∉ s) :
    ((¬ ∃ n e : Str, s = n ++ " <".data ++ e ++ ['>']) →
      authorEmail s = .error .attributeError ∧
      ∀ p, authorEmail s ≠ .error (.missingFile p)) ∧
    (∀ n e : Str, parseAuthorMatch s = some (n, e) →
      authorEmail s = .ok (n, e) ∧ s = n ++ " <".data ++ e ++ ['>']) ∧
    (∀ n e : Str, s = n ++ " <".data ++ e ++ ['>'] →
      (parseAuthorMatch s).isSome = true) := by
  refine ⟨?_, ?_, ?_⟩
  · intro hnex
    have hnone : parseAuthorMatch s = none := by
      cases hp : parseAuthorMatch s with
      | none => rfl
      | some p =>
        obtain ⟨n, e⟩ := p
        exact absurd ⟨n, e, parseAuthorMatch_some hp⟩ hnex
    refine ⟨by simp [authorEmail, hnone], ?_⟩
    intro p h
    simp [authorEmail, hnone] at h
  · intro n e hp
    exact ⟨by simp [authorEmail, hp], parseAuthorMatch_some hp⟩
  · intro n e hs
    rw [hs]
    exact parseAuthorMatch_of_decomp n e

theorem c9_witness :
    authorEmail "no author here".data = .error .attributeError ∧
    authorEmail "Team <x@y>".data = .ok ("Team".data, "x@y".data) :=
  ⟨((c9_author_pattern "no author here".data (by decide)).1 (fun hex => by
      obtain ⟨n, e, h⟩ := hex
      have hlast : ("no author here".data).getLast? = some '>' := by
        rw [h]
        exact List.getLast?_concat _
      exact absurd hlast (by decide))).1,
   ((c9_author_pattern "Team <x@y>".data (by decide)).2.1 "Team".data
      "x@y".data (by decide)).1⟩

/-- A successful conversion result is nonempty exactly when some input file
survives conversion. -/
lemma convertAll_nonempty_iff {cfg : Config} {d : Str} {fs out : List Str}
    (hout : convertAll cfg d fs = .ok out) :
    out ≠ [] ↔ ∃ g ∈ fs, ∃ f, convert_filename cfg d g = .ok (some f) := by
  constructor
  · intro hne
    obtain ⟨f, hf⟩ := List.exists_mem_of_ne_nil out hne
    obtain ⟨g, hg, hc⟩ := convertAll_mem hout f hf
    exact ⟨g, hg, f, hc⟩
  · rintro ⟨g, hg, f, hc⟩
    have hje := convert_filename_ok_some hc
    exact List.ne_nil_of_mem
      (convertAll_mem_of hout hg hc (by rw [hje.1]; exact pyJoin_isEmpty d g))

/-- C6 (corrected): a walked directory under the translations path (with the
four path components the language filter destructures, when a selection is
set) that contains files is included in the manifest iff its language
segment is selected (or the selection is unset) AND at least one of its
files survives filename conversion; its path is never rewritten.  Assumes no
file of the directory raises the missing-file error. -/
theorem c6_language_filter (cfg : Config) (scripts : List Str) (d : Str)
    (fs : List Str)
    (hloc : pyStartswith d shareLocale = true)
    (hfs : fs ≠ [])
    (hlen : cfg.linguas = none ∨ (pySplitN '/' 3 d).length = 4)
    (hconv : ∀ g ∈ fs, ∃ v, convert_filename cfg d g = .ok v) :
    (∃ fs', processDir cfg scripts (d, fs) = .ok (some (d, fs'))) ↔
      ((match cfg.linguas with
        | none => True
        | some sel => (pySplitN '/' 3 d).getD 2 [] ∈ sel) ∧
       ∃ g ∈ fs, ∃ f, convert_filename cfg d g = .ok (some f)) := by
  obtain ⟨out, hout⟩ := convertAll_exists_ok hconv
  have hshape : processDir cfg scripts (d, fs) =
      match linguasCheck cfg d with
      | .error e => .error e
      | .ok false => .ok none
      | .ok true =>
        if out.isEmpty then Except.ok none else .ok (some (d, out)) := by
    rw [processDir_locale hloc hfs]
    cases linguasCheck cfg d with
    | error e => rfl
    | ok b =>
      cases b with
      | false => rfl
      | true => rw [hout]
  have hiff := convertAll_nonempty_iff hout
  have hkeep : ∀ hk : linguasCheck cfg d = .ok true,
      ((∃ fs', processDir cfg scripts (d, fs) = .ok (some (d, fs'))) ↔
        ∃ g ∈ fs, ∃ f, convert_filename cfg d g = .ok (some f)) := by
    intro hk
    simp only [hshape, hk]
    by_cases ho : out = []
    · subst ho
      simp only [List.isEmpty_nil, if_true]
      constructor
      · rintro ⟨fs', hfs'⟩
        cases hfs'
      · intro hex
        exact absurd rfl (hiff.mpr hex)
    · rw [if_neg (by simpa using ho)]
      constructor
      · intro _
        exact hiff.mp ho
      · intro _
        exact ⟨out, rfl⟩
  cases hling : cfg.linguas with
  | none =>
    have hlc : linguasCheck cfg d = .ok true := by simp [linguasCheck, hling]
    rw [hkeep hlc]
    simp
  | some sel =>
    have hlen4 : (pySplitN '/' 3 d).length = 4 := by
      rcases hlen with h | h
      · rw [hling] at h; cases h
      · exact h
    have hlc : linguasCheck cfg d =
        .ok (sel.contains ((pySplitN '/' 3 d).getD 2 [])) := by
      simp only [linguasCheck, hling]
      rw [if_pos hloc, if_pos (show ((pySplitN '/' 3 d).length == 4) = true by
        simp [hlen4])]
    cases hmem : sel.contains ((pySplitN '/' 3 d).getD 2 []) with
    | true =>
      rw [hmem] at hlc
      rw [hkeep hlc]
      constructor
      · intro hx
        exact ⟨contains_iff_mem.mp hmem, hx⟩
      · intro hx
        exact hx.2
    | false =>
      rw [hmem] at hlc
      have hnmem : ¬ (pySplitN '/' 3 d).getD 2 [] ∈ sel := by
        intro hc
        rw [contains_iff_mem.mpr hc] at hmem
        cases hmem
      simp only [hshape, hlc]
      constructor
      · rintro ⟨fs', hfs'⟩
        cases hfs'
      · rintro ⟨hin, -⟩
        exact absurd hin hnmem

/-- C6 counterexample to the claim as stated: the directory
`share/locale/de/LC_MESSAGES` contains a file and its language segment `de`
is in the selection, yet the directory is NOT in the manifest, because its
only file is a `.h` header that filename conversion drops. -/
theorem c6_counterexample :
    pyStartswith "share/locale/de/LC_MESSAGES".data shareLocale = true ∧
    "de".data ∈ ["de".data] ∧
    (["gpodder.h".data] : List Str) ≠ [] ∧
    find_data_files cfgC6x []
      [("share/locale/de/LC_MESSAGES".data, ["gpodder.h".data])] = .ok [] :=
  ⟨by decide, by decide, by decide, rfl⟩

theorem c6_witness :
    ∃ fs', processDir cfgC6w []
        ("share/locale/de/LC_MESSAGES".data, ["gpodder.mo".data]) =
      .ok (some ("share/locale/de/LC_MESSAGES".data, fs')) :=
  (c6_language_filter cfgC6w [] "share/locale/de/LC_MESSAGES".data
      ["gpodder.mo".data] (by decide) (by decide) (Or.inr (by decide))
      (fun g hg => by
        rw [List.mem_singleton.mp hg]
        exact ⟨some (pyJoin "share/locale/de/LC_MESSAGES".data
          "gpodder.mo".data), rfl⟩)).mpr
    ⟨show (pySplitN '/' 3 "share/locale/de/LC_MESSAGES".data).getD 2 [] ∈
        [("de".data : Str)] by decide,
     "gpodder.mo".data, by decide,
     pyJoin "share/locale/de/LC_MESSAGES".data "gpodder.mo".data, rfl⟩

lemma rewriteDir_eq (cfg : Config) (d : Str) :
    rewriteDir cfg d =
      if cfg.manpathNoShare && pyStartswith d shareMan then
        pyReplace d shareMan "man".data
      else d := by
  rw [rewriteDir]
  cases hs : pyStartswith d shareMan <;> cases hm : cfg.manpathNoShare <;> simp

/-- C7 (amended): every emitted manifest pair comes from processing a walk
entry, and its directory is the path of the entry with every occurrence of the
string `share/man` replaced by `man` when the override is set and the path
merely STARTS WITH the string `share/man` (not necessarily lying under that
subtree); otherwise — in particular whenever the override is unset — the
path is emitted unchanged. -/
theorem c7_manpath_rewrite (cfg : Config) (scripts : List Str)
    (walk res : List (Str × List Str))
    (hok : find_data_files cfg scripts walk = .ok res) :
    ∀ q ∈ res, ∃ e ∈ walk, processDir cfg scripts e = .ok (some q) ∧
      q.1 = (if cfg.manpathNoShare && pyStartswith e.1 shareMan then
              pyReplace e.1 shareMan "man".data
             else e.1) := by
  intro q hq
  obtain ⟨e, he, hpe⟩ := find_data_files_mem hok q hq
  refine ⟨e, he, hpe, ?_⟩
  obtain ⟨d0, fs0⟩ := e
  obtain ⟨q1, q2⟩ := q
  exact (processDir_ok_some hpe).1.trans (rewriteDir_eq cfg d0)

/-- C7 counterexample to the claim as stated: with the override set, the
walked directory `share/manuals` — which does not lie under the `share/man`
subtree, it only shares the string prefix — is emitted REWRITTEN to
`manuals`, contradicting "every other emitted directory path is unchanged". -/
theorem c7_counterexample :
    ("share/manuals".data ≠ shareMan ∧
      pyStartswith "share/manuals".data (shareMan ++ ['/']) = false) ∧
    find_data_files cfgC7 [] [("share/manuals".data, ["readme".data])] =
      .ok [("manuals".data, ["share/manuals/readme".data])] ∧
    "manuals".data ≠ "share/manuals".data :=
  ⟨⟨by decide, by decide⟩, rfl, by decide⟩

theorem c7_witness :
    ∃ e ∈ [("share/man/man1".data, ["readme".data])],
      processDir cfgC7w [] e =
        .ok (some ("man/man1".data, ["share/man/man1/readme".data])) ∧
      ("man/man1".data,
        (["share/man/man1/readme".data] : List Str)).1 =
        (if cfgC7w.manpathNoShare && pyStartswith e.1 shareMan then
          pyReplace e.1 shareMan "man".data
         else e.1) :=
  c7_manpath_rewrite cfgC7w [] [("share/man/man1".data, ["readme".data])]
    [("man/man1".data, ["share/man/man1/readme".data])] rfl
    ("man/man1".data, ["share/man/man1/readme".data]) (by decide)


/-- A `*.1` file always converts to its joined path: `.1` rules out both the
`.h` and the `.in` suffix. -/
lemma convert_filename_dot1 {cfg : Config} {d g : Str}
    (h1 : pyEndswith g ".1".data = true) :
    convert_filename cfg d g = .ok (some (pyJoin d g)) := by
  have hh : pyEndswith (pyJoin d g) ".h".data = false := by
    rw [pyEndswith_pyJoin (by decide)]
    by_contra hc
    rw [Bool.not_eq_false, pyEndswith_iff] at hc
    rw [pyEndswith_iff] at h1
    exact absurd (List.suffix_of_suffix_length_le hc h1 (by decide)) (by decide)
  have hin : pyEndswith (pyJoin d g) ".in".data = false := by
    rw [pyEndswith_pyJoin (by decide)]
    by_contra hc
    rw [Bool.not_eq_false, pyEndswith_iff] at hc
    rw [pyEndswith_iff] at h1
    exact absurd (List.suffix_of_suffix_length_le h1 hc (by decide)) (by decide)
  simp only [convert_filename, hh, hin, Bool.false_eq_true, if_false]

lemma have_script_dot1 {scripts : List Str} {g : Str}
    (h1 : pyEndswith g ".1".data = true) :
    have_script scripts g = true ↔
      ∃ s ∈ scripts, pyBasename s = splitextRoot g := by
  rw [have_script, if_neg (by simp [h1])]
  simp [List.any_eq_true]

/-- C3 (amended): under `share/man`, a walked file ending in `.1` is in the
yielded manifest entry iff the basename of some computed script equals the
`os.path.splitext` root — which is `foo` for `foo.1` except when the part
before the trailing `.1` is empty or all dots, in which case the whole file
name is used; files not ending in `.1` are never subject to the script
filter. -/
theorem c3_manpage_filter :
    (∀ (cfg : Config) (scripts : List Str) (d g : Str) (fs : List Str)
        (r : Option (Str × List Str)),
      pyStartswith d shareMan = true → g ∈ fs →
      pyEndswith g ".1".data = true →
      processDir cfg scripts (d, fs) = .ok r →
      (pyJoin d g ∈ filesOf r ↔
        ∃ s ∈ scripts, pyBasename s = splitextRoot g)) ∧
    (∀ (scripts : List Str) (g : Str),
      pyEndswith g ".1".data = false → have_script scripts g = true) := by
  constructor
  · intro cfg scripts d g fs r hman hg h1 hok
    have hfs : fs ≠ [] := List.ne_nil_of_mem hg
    rw [processDir_man hman hfs] at hok
    have hcg : convert_filename cfg d g = .ok (some (pyJoin d g)) :=
      convert_filename_dot1 h1
    cases hc : convertAll cfg d (fs.filter (have_script scripts)) with
    | error e => rw [hc] at hok; cases hok
    | ok conv =>
      rw [hc] at hok
      have hok2 : (if conv.isEmpty then Except.ok none
          else Except.ok (some (rewriteDir cfg d, conv))) =
            (Except.ok r : Except PyErr (Option (Str × List Str))) := hok
      by_cases hconv : conv.isEmpty = true
      · rw [if_pos hconv] at hok2
        injection hok2 with hok2
        cases hok2
        have hcnil : conv = [] := by simpa using hconv
        subst hcnil
        simp only [filesOf]
        constructor
        · intro hin
          exact absurd hin (List.not_mem_nil _)
        · intro hex
          have hhs : have_script scripts g = true := (have_script_dot1 h1).mpr hex
          have hgf : g ∈ fs.filter (have_script scripts) :=
            List.mem_filter.mpr ⟨hg, hhs⟩
          exact absurd (convertAll_mem_of hc hgf hcg (pyJoin_isEmpty d g))
            (List.not_mem_nil _)
      · rw [if_neg hconv] at hok2
        injection hok2 with hok2
        cases hok2
        simp only [filesOf]
        constructor
        · intro hin
          obtain ⟨g', hg', hcg'⟩ := convertAll_mem hc (pyJoin d g) hin
          have hh := convert_filename_ok_some hcg'
          have hgg : g = g' := pyJoin_inj hh.1
          have hhs : have_script scripts g = true :=
            hgg ▸ (List.mem_filter.mp hg').2
          exact (have_script_dot1 h1).mp hhs
        · intro hex
          have hhs : have_script scripts g = true := (have_script_dot1 h1).mpr hex
          have hgf : g ∈ fs.filter (have_script scripts) :=
            List.mem_filter.mpr ⟨hg, hhs⟩
          exact convertAll_mem_of hc hgf hcg (pyJoin_isEmpty d g)
  · intro scripts g h1
    rw [have_script, if_pos (by simp [h1])]

/-- C3 counterexample to the claim as stated: the manpage file `..1` has the
form `foo.1` with `foo = "."`; no script in the list has base name `"."`,
so the claim predicts exclusion — yet the file IS included, because the code
compares against the root part from `os.path.splitext`, which for the all-dots name
`..1` is the whole name `..1`, matched here by a script named `..1`. -/
theorem c3_counterexample :
    (¬ ∃ s ∈ [("bin/..1").data], pyBasename s = ".".data) ∧
    find_data_files cfgC3 ["bin/..1".data]
        [("share/man/man1".data, ["..1".data])] =
      .ok [("share/man/man1".data, ["share/man/man1/..1".data])] :=
  ⟨by decide, rfl⟩

theorem c3_witness :
    pyJoin "share/man/man1".data "gpo.1".data ∈
      filesOf (some ("share/man/man1".data,
        ["share/man/man1/gpo.1".data])) ∧
    have_script ["bin/gpo".data] "README".data = true :=
  ⟨(c3_manpage_filter.1 cfgC3w ["bin/gpo".data] "share/man/man1".data
      "gpo.1".data ["gpo.1".data]
      (some ("share/man/man1".data, ["share/man/man1/gpo.1".data]))
      (by decide) (by decide) (by decide) rfl).mpr
        ⟨"bin/gpo".data, by decide, by decide⟩,
   c3_manpage_filter.2 ["bin/gpo".data] "README".data (by decide)⟩

/-- A file ending in neither `.h` nor `.in` converts to its joined path. -/
lemma convert_filename_plain {cfg : Config} {d x : Str}
    (hh : pyEndswith x ".h".data = false)
    (hin : pyEndswith x ".in".data = false) :
    convert_filename cfg d x = .ok (some (pyJoin d x)) := by
  simp only [convert_filename,
    pyEndswith_pyJoin (show '/' ∉ ".h".data by decide) d x,
    pyEndswith_pyJoin (show '/' ∉ ".in".data by decide) d x,
    hh, hin, Bool.false_eq_true, if_false]

/-- An `.in` file is never a manpage (`.1`) file, so the manpage filter
keeps it. -/
lemma have_script_in_file (scripts : List Str) (x : Str) :
    have_script scripts (x ++ ".in".data) = true := by
  have h1f : pyEndswith (x ++ ".in".data) ".1".data = false := by
    by_contra hc
    rw [Bool.not_eq_false, pyEndswith_iff] at hc
    have h2 : ".in".data <:+ x ++ ".in".data := List.suffix_append x _
    exact absurd (List.suffix_of_suffix_length_le hc h2 (by decide)) (by decide)
  rw [have_script, if_pos (by simp [h1f])]

/-- C1 (amended): (a) no file of the data-file manifest ever ends in `.in`;
(b) in a directory that passes the directory-level filters, an `.in` file
whose stripped target does not exist aborts the whole construction with
`MissingFile` naming the joined stripped path, on an actual install, once
every file walked before it converts cleanly; (c) when the target exists
and is listed by the walk, construction of the directory succeeds and the
sibling appears in the manifest — PROVIDED the sibling itself ends in
neither `.h` nor `.in` (and, under `share/man`, passes the manpage filter)
— while the `.in` file itself never appears. -/
theorem c1_in_file_handling :
    (∀ (cfg : Config) (scripts : List Str)
        (walk res : List (Str × List Str)),
      find_data_files cfg scripts walk = .ok res →
      ∀ q ∈ res, ∀ f ∈ q.2, pyEndswith f ".in".data = false) ∧
    (∀ (cfg : Config) (scripts : List Str) (d x : Str)
        (fs₁ fs₂ : List Str) (rest : List (Str × List Str)),
      cfg.installing = true →
      cfg.pathExists (pyJoin d x) = false →
      uiFilterSkip cfg d = false →
      linguasCheck cfg d = .ok true →
      freedesktopSkip cfg d = false →
      (∀ g ∈ fs₁, ∃ v, convert_filename cfg d g = .ok v) →
      find_data_files cfg scripts
          ((d, fs₁ ++ (x ++ ".in".data) :: fs₂) :: rest) =
        .error (.missingFile (pyJoin d x))) ∧
    (∀ (cfg : Config) (scripts : List Str) (d x : Str) (fs : List Str),
      cfg.pathExists (pyJoin d x) = true →
      x ∈ fs → (x ++ ".in".data) ∈ fs →
      uiFilterSkip cfg d = false →
      linguasCheck cfg d = .ok true →
      freedesktopSkip cfg d = false →
      (∀ g ∈ fs, ∃ v, convert_filename cfg d g = .ok v) →
      pyEndswith x ".h".data = false →
      pyEndswith x ".in".data = false →
      (pyStartswith d shareMan = true → have_script scripts x = true) →
      ∃ fs', processDir cfg scripts (d, fs) =
          .ok (some (rewriteDir cfg d, fs')) ∧
        pyJoin d x ∈ fs' ∧ pyJoin d (x ++ ".in".data) ∉ fs') := by
  refine ⟨?_, ?_, ?_⟩
  · -- (a) no `.in` file in the manifest
    intro cfg scripts walk res hok q hq f hf
    obtain ⟨e, _, hpe⟩ := find_data_files_mem hok q hq
    obtain ⟨d0, fs0⟩ := e
    obtain ⟨q1, q2⟩ := q
    have hca := (processDir_ok_some hpe).2
    obtain ⟨g, _, hcg⟩ := convertAll_mem hca f hf
    exact (convert_filename_ok_some hcg).2.2
  · -- (b) missing target aborts with `MissingFile`
    intro cfg scripts d x fs₁ fs₂ rest hinst hex hui hlin hfree hconv1
    have hcf : convert_filename cfg d (x ++ ".in".data) =
        .error (.missingFile (pyJoin d x)) := by
      rw [convert_filename_in, if_pos (by simp [hinst, hex])]
    have hfs : fs₁ ++ (x ++ ".in".data) :: fs₂ ≠ [] := by simp
    have hCA : convertAll cfg d
        (if pyStartswith d shareMan then
          (fs₁ ++ (x ++ ".in".data) :: fs₂).filter (have_script scripts)
         else fs₁ ++ (x ++ ".in".data) :: fs₂) =
        .error (.missingFile (pyJoin d x)) := by
      by_cases hsm : pyStartswith d shareMan = true
      · rw [if_pos hsm, List.filter_append, List.filter_cons,
          if_pos (have_script_in_file scripts x)]
        exact convertAll_error_split
          (fun g hg => hconv1 g (List.mem_filter.mp hg).1) hcf
      · rw [if_neg hsm]
        exact convertAll_error_split hconv1 hcf
    have hpd : processDir cfg scripts
        (d, fs₁ ++ (x ++ ".in".data) :: fs₂) =
        .error (.missingFile (pyJoin d x)) := by
      rw [processDir_pass hfs hui hlin hfree, hCA]
    exact find_data_files_error_head hpd
  · -- (c) present target: directory succeeds, sibling in, `.in` out
    intro cfg scripts d x fs hex hx hxin hui hlin hfree hconv hh hin hman
    have hfs : fs ≠ [] := List.ne_nil_of_mem hx
    have hx2 : x ∈ (if pyStartswith d shareMan then
        fs.filter (have_script scripts) else fs) := by
      by_cases hsm : pyStartswith d shareMan = true
      · rw [if_pos hsm]
        exact List.mem_filter.mpr ⟨hx, hman hsm⟩
      · rw [if_neg hsm]
        exact hx
    have hsub : ∀ g ∈ (if pyStartswith d shareMan then
        fs.filter (have_script scripts) else fs), g ∈ fs := by
      intro g hg2
      by_cases hsm : pyStartswith d shareMan = true
      · rw [if_pos hsm] at hg2
        exact (List.mem_filter.mp hg2).1
      · rw [if_neg hsm] at hg2
        exact hg2
    obtain ⟨out, hout⟩ :=
      convertAll_exists_ok (fun g hg2 => hconv g (hsub g hg2))
    have hjx : pyJoin d x ∈ out :=
      convertAll_mem_of hout hx2 (convert_filename_plain hh hin)
        (pyJoin_isEmpty d x)
    have hne : out.isEmpty = false := by
      rw [List.isEmpty_eq_false]
      exact List.ne_nil_of_mem hjx
    refine ⟨out, ?_, hjx, ?_⟩
    · have hred : (if out.isEmpty then Except.ok none
          else Except.ok (some (rewriteDir cfg d, out))) =
          (Except.ok (some (rewriteDir cfg d, out)) :
            Except PyErr (Option (Str × List Str))) := by
        rw [if_neg (by simp [hne])]
      rw [processDir_pass hfs hui hlin hfree, hout]
      exact hred
    · intro hbad
      obtain ⟨g', _, hcg'⟩ := convertAll_mem hout (pyJoin d (x ++ ".in".data)) hbad
      have hend : pyEndswith (pyJoin d (x ++ ".in".data)) ".in".data = true := by
        rw [pyEndswith_pyJoin (by decide), pyEndswith_iff]
        exact List.suffix_append x _
      rw [(convert_filename_ok_some hcg').2.2] at hend
      cases hend

/-- C1 counterexample to the claim as stated: for the `.in` file `a.h.in`,
whose stripped sibling `a.h` exists on disk (and is listed by the walk) on
an actual install, construction succeeds — but the sibling does NOT appear
in the manifest, because `a.h` is itself dropped by the `.h` header rule. -/
theorem c1_counterexample :
    cfgC1.installing = true ∧
    cfgC1.pathExists (pyJoin "share/data".data "a.h".data) = true ∧
    find_data_files cfgC1 []
      [("share/data".data, ["a.h.in".data, "a.h".data])] = .ok [] :=
  ⟨rfl, by decide, rfl⟩

theorem c1_witness :
    pyEndswith "share/doc/news".data ".in".data = false ∧
    find_data_files cfgC1b []
        [("share/doc".data, [("news".data ++ ".in".data)])] =
      .error (.missingFile (pyJoin "share/doc".data "news".data)) ∧
    ∃ fs', processDir cfgC1c []
          ("share/doc".data, ["news".data, "news".data ++ ".in".data]) =
        .ok (some (rewriteDir cfgC1c "share/doc".data, fs')) ∧
      pyJoin "share/doc".data "news".data ∈ fs' ∧
      pyJoin "share/doc".data ("news".data ++ ".in".data) ∉ fs' :=
  ⟨c1_in_file_handling.1 cfgC1b []
      [("share/doc".data, ["news".data])]
      [("share/doc".data, ["share/doc/news".data])] rfl
      ("share/doc".data, ["share/doc/news".data]) (by decide)
      "share/doc/news".data (by decide),
   c1_in_file_handling.2.1 cfgC1b [] "share/doc".data "news".data
      [] [] [] rfl rfl rfl rfl rfl (fun g hg => absurd hg (List.not_mem_nil g)),
   c1_in_file_handling.2.2 cfgC1c [] "share/doc".data "news".data
      ["news".data, "news".data ++ ".in".data] (by decide) (by decide)
      (by decide) rfl rfl rfl
      (fun g hg => by
        rcases List.mem_cons.mp hg with h | h
        · subst h
          exact ⟨some (pyJoin "share/doc".data "news".data), rfl⟩
        · rw [List.mem_singleton.mp h]
          exact ⟨none, rfl⟩)
      (by decide) (by decide) (fun h => absurd h (by decide))⟩

end GpodderSetup
